import Mathlib

/-!
Verification development for the floribundus browser-tab sorting extension.

The repository ships several variants of the same background script:
`src/floribundus_background.js` (the main variant, abbreviated "bg" below),
and `src/unnamed/part_000` .. `part_003`.  Where variants disagree, both
behaviours are embedded side by side; definitions modelling a variant other
than the main one carry the part number as a suffix (e.g. `...P001`,
`...P002`).

The embedding is shallow: tabs, attribute records and messaging responses
are plain Lean structures, asynchronous host calls are replaced by explicit
outcome parameters (`Except Unit _` for calls that may throw), the badge
("Status Signal") side effects are collected into an explicit list of
`Signal` values, and JavaScript's stable `Array.prototype.sort` is modelled
by a stable insertion sort parameterised by an integer-valued comparator.
-/

namespace Floribundus

/-- A parsed date record `{year, month, day}` as delivered by the external
heliotropium extension; any subset of the fields may be absent (`null`). -/
structure ParsedDate where
  year : Option Int
  month : Option Int
  day : Option Int
deriving DecidableEq, Repr

/-- One element of the resolver response / attribute index:
`{tabId, url, title, dateString, date}`. -/
structure TabInfo where
  tabId : Nat
  url : Option String
  title : Option String
  dateString : Option String
  date : Option ParsedDate
deriving DecidableEq, Repr

/-- The fields of a browser tab that the engine reads: `id`, `index`
(position in its window), `url` and `title` (either may be missing). -/
structure Tab where
  id : Nat
  index : Int
  url : Option String
  title : Option String
deriving DecidableEq, Repr

/-- Milliseconds per day, the scale factor of a JavaScript `Date` value
that holds a midnight-UTC instant. -/
def msPerDay : Int := 86400000

/-- Days since the Unix epoch of the civil date `y-m-d` (month 1..12),
the standard days-from-civil computation used by JavaScript's `MakeDay`. -/
def daysFromCivil (y m d : Int) : Int :=
  let yAdj := if m ≤ 2 then y - 1 else y
  let era := Int.fdiv yAdj 400
  let yoe := yAdj - era * 400
  let mAdj := if m > 2 then m - 3 else m + 9
  let doy := Int.fdiv (153 * mAdj + 2) 5 + d - 1
  let doe := yoe * 365 + Int.fdiv yoe 4 - Int.fdiv yoe 100 + doy
  era * 146097 + doe - 719468

/-- JavaScript `MakeDay(year, monthIndex, day)`: the month index is
normalised by floor-division/modulo into a year and a month `0..11`, and
the day is added as an offset from day 1. -/
def makeDay (year monthIdx day : Int) : Int :=
  let ym := year + Int.fdiv monthIdx 12
  let mn := Int.fmod monthIdx 12
  daysFromCivil ym (mn + 1) 1 + (day - 1)

/-- The value (epoch milliseconds) of `new Date(Date.UTC(y, m - 1, d))` as
built by `getComparableDate`: `Date.UTC` maps a year `0..99` to `1900+y`,
then `MakeDay` runs on the zero-based month index `m - 1`. -/
def dateUTCms (y m d : Int) : Int :=
  let yr := if 0 ≤ y ∧ y ≤ 99 then y + 1900 else y
  makeDay yr (m - 1) d * msPerDay

/-- `getComparableDate` of `src/floribundus_background.js` (lines 254-260):
returns `null` unless `year`, `month` and `day` are all non-null, else the
`Date` value for that day. -/
def getComparableDate (dateObj : Option ParsedDate) : Option Int :=
  match dateObj with
  | none => none
  | some o =>
    match o.year, o.month, o.day with
    | some y, some m, some d => some (dateUTCms y m d)
    | _, _, _ => none

/-- JavaScript `o || dflt` on an optional integer: `null`/`undefined` and
`0` are falsy and yield the default. -/
def jsOrInt (o : Option Int) (dflt : Int) : Int :=
  match o with
  | none => dflt
  | some v => if v = 0 then dflt else v

/-- `getComparableDate` of `src/unnamed/part_002` (lines 194-201): only the
year is required; `(dateObj.month || 1)` and `(dateObj.day || 1)` default
an absent (or zero) month/day to 1. -/
def getComparableDateP002 (dateObj : Option ParsedDate) : Option Int :=
  match dateObj with
  | none => none
  | some o =>
    match o.year with
    | none => none
    | some y => some (dateUTCms y (jsOrInt o.month 1) (jsOrInt o.day 1))

/-- The temporal comparator body shared by `sortSelectedTabsByDate`
(bg lines 288-298, part_002 lines 222-229) once both comparable dates have
been computed: both present ⇒ `dateA - dateB`; only one present ⇒ the dated
side first; neither ⇒ `0`. -/
def compareDates (dA dB : Option Int) : Int :=
  match dA, dB with
  | some a, some b => a - b
  | some _, none => -1
  | none, some _ => 1
  | none, none => 0

/-- Last-match lookup in an association list, modelling a JavaScript `Map`
built from an entry array (later entries with the same key overwrite
earlier ones). -/
def lookupLast (k : Nat) (l : List (Nat × TabInfo)) : Option TabInfo :=
  List.lookup k l.reverse

/-- The comparator closure of bg `sortSelectedTabsByDate` (lines 282-299):
looks both tabs up in the fetched attribute index (`tabDataMap.get(id)`,
then `?.date`) and compares the comparable dates. -/
def tabCompareByDate (m : List (Nat × TabInfo)) (a b : Tab) : Int :=
  let dateA := getComparableDate ((List.lookup a.id m).bind (·.date))
  let dateB := getComparableDate ((List.lookup b.id m).bind (·.date))
  compareDates dateA dateB

/-- The textual sort key: `tab.url || ''` (bg lines 143-144). -/
def urlOrEmpty (t : Tab) : String := t.url.getD ""

/-- The comparator closure of bg `sortSelectedTabsByUrl` (lines 142-146),
parameterised by the host's `localeCompare` ordering `lc`. -/
def tabCompareByUrl (lc : String → String → Int) (a b : Tab) : Int :=
  lc (urlOrEmpty a) (urlOrEmpty b)

/-- JavaScript's coercion of a string-method argument: `localeCompare`
converts an `undefined` argument to the string `"undefined"`. -/
def jsArgString (o : Option String) : String := o.getD "undefined"

/-- The comparator of part_000 `sortSelectedTabsByUrl` (lines 41-48):
`a.url.localeCompare(b.url)` with no `|| ''` fallback.  A missing `url` on
the left throws a TypeError (modelled as `.error ()`); a missing `url` on
the right is coerced to the string `"undefined"`. -/
def tabCompareByUrlP000 (lc : String → String → Int) (a b : Tab) :
    Except Unit Int :=
  match a.url with
  | none => .error ()
  | some ua => .ok (lc ua (jsArgString b.url))

/-- One step of the stable sort model: insert `x` in front of the first
element it compares `≤ 0` against.  Since `sortComparing` inserts earlier
elements into the sorted list of later ones, an element ties with (and so
stays in front of) the equal elements that followed it — the stability
guarantee of `Array.prototype.sort` / `Array.prototype.toSorted`. -/
def insertComparing (cmp : α → α → Int) (x : α) : List α → List α
  | [] => [x]
  | y :: ys => if cmp x y ≤ 0 then x :: y :: ys else y :: insertComparing cmp x ys

/-- Stable comparator sort modelling `Array.prototype.sort(cmp)` and
`Array.prototype.toSorted(cmp)` for a consistent comparator. -/
def sortComparing (cmp : α → α → Int) : List α → List α
  | [] => []
  | x :: xs => insertComparing cmp x (sortComparing cmp xs)

/-- `insertComparing` for a comparator that can throw: the first throwing
comparison aborts the whole sort (the exception propagates out of
`Array.prototype.sort`). -/
def insertComparingExc (cmp : α → α → Except Unit Int) (x : α) :
    List α → Except Unit (List α)
  | [] => .ok [x]
  | y :: ys =>
    match cmp x y with
    | .error e => .error e
    | .ok c =>
      if c ≤ 0 then .ok (x :: y :: ys)
      else
        match insertComparingExc cmp x ys with
        | .error e => .error e
        | .ok l => .ok (y :: l)

/-- `sortComparing` for a comparator that can throw. -/
def sortComparingExc (cmp : α → α → Except Unit Int) :
    List α → Except Unit (List α)
  | [] => .ok []
  | x :: xs =>
    match sortComparingExc cmp xs with
    | .error e => .error e
    | .ok l => insertComparingExc cmp x l

/-- Badge notifications sent to the Operation Status Signal collaborator:
`working` is `setWorkingBadge()`, `success`/`failure` are
`flashBadge({success})`. -/
inductive Signal where
  | working
  | success
  | failure
deriving DecidableEq, Repr

/-- A messaging response object: `error` (a string, truthy when non-empty)
and `data`, which is `some items` when the payload carries an array under
`data` and `none` when the field is missing or not an array. -/
structure RespPayload where
  error : Option String
  data : Option (List TabInfo)
deriving DecidableEq, Repr

/-- Outcome of the `chrome.runtime.sendMessage` round trip:
`.error ()` models the call throwing (transport error), `.ok none` a falsy
(missing) response, `.ok (some r)` a response object. -/
abbrev FetchOutcome := Except Unit (Option RespPayload)

/-- JavaScript truthiness of `response.error`: present and non-empty. -/
def respTruthyError (r : RespPayload) : Bool :=
  match r.error with
  | none => false
  | some s => !s.isEmpty

/-- The seeded fallback attribute of bg `fetchTabDates` (lines 206-212):
`{tabId, url, title, dateString: null, date: null}`. -/
def fallbackInfo (t : Tab) : TabInfo :=
  { tabId := t.id, url := t.url, title := t.title, dateString := none, date := none }

/-- `fetchTabDates` of `src/floribundus_background.js` (lines 171-246),
response-handling phase.  The readiness-wait phase (lines 172-199) only
delays the request and is modelled separately by `reloadWait`.  Inputs:
the snapshot `tabs`, whether the manifest carries the heliotropium
endpoint configuration, and the messaging outcome.  Returns the attribute
index (as the insertion-ordered entry list of the JavaScript `Map`)
together with the badge signals emitted — this variant emits none: every
failure silently returns the seeded fallback map. -/
def fetchTabDates (tabs : List Tab) (hasConfig : Bool) (resp : FetchOutcome) :
    List (Nat × TabInfo) × List Signal :=
  let fallback := tabs.map (fun t => (t.id, fallbackInfo t))
  if !hasConfig then (fallback, [])
  else
    match resp with
    | .error _ => (fallback, [])
    | .ok none => (fallback, [])
    | .ok (some r) =>
      if respTruthyError r then (fallback, [])
      else
        match r.data with
        | none => (fallback, [])
        | some items =>
          (tabs.map (fun t =>
            (t.id, match lookupLast t.id (items.map (fun it => (it.tabId, it))) with
                   | some it => it
                   | none => fallbackInfo t)), [])

/-- The fallback attribute of part_001 `fetchTabDates` (lines 84-93):
unlike bg it uses `title: null` and `date: {year: null, month: null,
day: null}` (an object with null fields, still an absent date). -/
def fallbackInfoP001 (t : Tab) : TabInfo :=
  { tabId := t.id, url := t.url, title := none, dateString := none,
    date := some { year := none, month := none, day := none } }

/-- `fetchTabDates` of `src/unnamed/part_001` (lines 74-134): same
degradation to fallback data, but this variant calls
`flashBadge({success: false})` on every failure path (no/odd response,
response error, thrown send).  Its check order is `!response ||
!response.data || response.error`, and it returns an array rather than a
map. -/
def fetchTabDatesP001 (tabs : List Tab) (resp : FetchOutcome) :
    List TabInfo × List Signal :=
  let fallback := tabs.map fallbackInfoP001
  match resp with
  | .error _ => (fallback, [Signal.failure])
  | .ok none => (fallback, [Signal.failure])
  | .ok (some r) =>
    match r.data with
    | none => (fallback, [Signal.failure])
    | some items =>
      if respTruthyError r then (fallback, [Signal.failure])
      else
        (tabs.map (fun t =>
          match lookupLast t.id (items.map (fun it => (it.tabId, it))) with
          | some it => it
          | none => fallbackInfoP001 t), [])

/-- An attribute is *absent* (spec §3) when its `date` is `null` or its
`year` is `null`. -/
def attrAbsent (ti : TabInfo) : Bool :=
  match ti.date with
  | none => true
  | some d => d.year.isNone

/-- `getSelectedTabs` of `src/floribundus_background.js` (lines 109-124):
sorts the queried tabs ascending by `index` (`toSorted((a, b) => a.index -
b.index)`) and degrades a failed query to the empty list. -/
def getSelectedTabs (queryR : Except Unit (List Tab)) : List Tab :=
  match queryR with
  | .error _ => []
  | .ok tabs => sortComparing (fun a b => a.index - b.index) tabs

/-- `getSelectedTabs` of `src/unnamed/part_001` (lines 22-36): returns the
queried tabs in host order (no sort) and `null` when the query throws. -/
def getSelectedTabsP001 (queryR : Except Unit (List Tab)) : Option (List Tab) :=
  match queryR with
  | .error _ => none
  | .ok tabs => some tabs

/-- `Math.max(...tabs.map(tab => tab.index))` (bg line 304).  Only applied
to non-empty selections; the `[]` case (JavaScript `-Infinity`) is given a
dummy value. -/
def maxIndex (tabs : List Tab) : Int :=
  match tabs.map (·.index) with
  | [] => 0
  | x :: xs => xs.foldl max x

/-- `Math.min(...tabs.map(tab => tab.index))` (part_001 line 51). -/
def leftmostIndex (tabs : List Tab) : Int :=
  match tabs.map (·.index) with
  | [] => 0
  | x :: xs => xs.foldl min x

/-- `startIndex = rightmostIndex - sortedTabIds.length + 1`
(bg lines 304-305). -/
def startIndex (tabs : List Tab) : Int :=
  maxIndex tabs - tabs.length + 1

/-- `chrome.tabs.move(tid, {index: j})` on a window modelled as the list of
its tab ids: the tab is removed and re-inserted so that its final position
is `j`, clamped to the end of the strip. -/
def moveOne (l : List Nat) (tid : Nat) (j : Nat) : List Nat :=
  if tid ∈ l then
    let l2 := l.erase tid
    l2.insertIdx (min j l2.length) tid
  else l

/-- The batched `chrome.tabs.move(ids, {index: j})`: the listed tabs are
extracted and re-inserted as a contiguous block starting at `j` (clamped),
in the order given. -/
def moveBatch (l : List Nat) (ids : List Nat) (j : Nat) : List Nat :=
  let kept := l.filter (fun x => !(ids.contains x))
  let j2 := min j kept.length
  kept.take j2 ++ ids ++ kept.drop j2

/-- The back-to-front single-move loop of part_001 `moveTabs`
(lines 389-391): `rids` is the reversed id order, so the head is
`sortedTabs[n-1]`, moved to `startIndex + (n-1)`, and so on downwards. -/
def moveSeqRev (l : List Nat) (rids : List Nat) (s : Nat) : List Nat :=
  match rids with
  | [] => l
  | a :: rest => moveSeqRev (moveOne l a (s + rest.length)) rest s

/-- `for (let i = sortedTabs.length - 1; i >= 0; i--) await
chrome.tabs.move(sortedTabs[i].id, {index: startIndex + i})`
(part_001 lines 388-391). -/
def moveTabsSeq (l : List Nat) (ids : List Nat) (s : Nat) : List Nat :=
  moveSeqRev l ids.reverse s

/-- The rightmost selected position: maximum over `ids` of each id's index
in the window list `l`. -/
def maxPos (l : List Nat) (ids : List Nat) : Nat :=
  (ids.map (fun id => List.indexOf id l)).foldr max 0

/-- The destination start position at window level:
`rightmost - n + 1` (natural subtraction; under the theorems' hypotheses
`n ≤ rightmost + 1`, so it agrees with the integer formula). -/
def startPos (l : List Nat) (ids : List Nat) : Nat :=
  maxPos l ids + 1 - ids.length

/-- A move request issued to the host: the ids (singleton for single-tab
moves) and the target index. -/
structure MoveReq where
  ids : List Nat
  index : Int
deriving DecidableEq, Repr

/-- Observable outcome of one sort operation: the badge signals in order,
whether the resolver was invoked, and the move requests issued. -/
structure RunLog where
  signals : List Signal
  fetchCalled : Bool
  moves : List MoveReq
deriving DecidableEq, Repr

/-- `sortSelectedTabsByUrl` of `src/floribundus_background.js`
(lines 129-164), after the snapshot: working badge, short-circuit to a
success badge below 2 tabs, else one batched move of the sorted ids to
`startIndex`; a throwing move ends in a failure badge, otherwise a success
badge. -/
def sortSelectedTabsByUrl (lc : String → String → Int) (tabs : List Tab)
    (moveOk : Bool) : RunLog :=
  if tabs.length < 2 then
    { signals := [Signal.working, Signal.success], fetchCalled := false, moves := [] }
  else
    let sorted := sortComparing (tabCompareByUrl lc) tabs
    let req : MoveReq := { ids := sorted.map (·.id), index := startIndex tabs }
    { signals := [Signal.working, if moveOk then Signal.success else Signal.failure],
      fetchCalled := false, moves := [req] }

/-- `sortSelectedTabsByDate` of `src/floribundus_background.js`
(lines 265-318), after the snapshot: working badge, short-circuit below 2
tabs, else fetch (whose signals are interleaved here — this variant emits
none), stable sort by the temporal comparator, one batched move, terminal
badge. -/
def sortSelectedTabsByDate (tabs : List Tab) (hasConfig : Bool)
    (resp : FetchOutcome) (moveOk : Bool) : RunLog :=
  if tabs.length < 2 then
    { signals := [Signal.working, Signal.success], fetchCalled := false, moves := [] }
  else
    let fetched := fetchTabDates tabs hasConfig resp
    let sorted := sortComparing (tabCompareByDate fetched.1) tabs
    let req : MoveReq := { ids := sorted.map (·.id), index := startIndex tabs }
    { signals := Signal.working ::
        (fetched.2 ++ [if moveOk then Signal.success else Signal.failure]),
      fetchCalled := true, moves := [req] }

/-- `sortSelectedTabsByUrl` of `src/unnamed/part_001` (lines 38-72): a null
or empty snapshot flashes a *failure* badge and stops; otherwise — with no
lower bound on the tab count — it sorts and issues one `chrome.tabs.move`
per tab to `leftmostIndex + i` (each with its own swallowed error handler)
and flashes a success badge. -/
def sortSelectedTabsByUrlP001 (lc : String → String → Int)
    (queryR : Except Unit (List Tab)) : RunLog :=
  match getSelectedTabsP001 queryR with
  | none =>
    { signals := [Signal.failure], fetchCalled := false, moves := [] }
  | some tabs =>
    if tabs.length = 0 then
      { signals := [Signal.failure], fetchCalled := false, moves := [] }
    else
      let sorted := sortComparing (tabCompareByUrl lc) tabs
      { signals := [Signal.success], fetchCalled := false,
        moves := (List.range sorted.length).zip sorted |>.map
          (fun p => { ids := [p.2.id], index := leftmostIndex tabs + p.1 }) }

/-- `sortSelectedTabsByUrl` of `src/unnamed/part_000` (lines 33-58): no
length guard and no working badge; sorts with the fallback-less comparator
`a.url.localeCompare(b.url)`, then moves each tab to `leftmostIndex + i`
and flashes a success badge; a throw from the comparator is caught into a
failure badge before any move is issued. -/
def sortSelectedTabsByUrlP000 (lc : String → String → Int)
    (tabs : List Tab) : RunLog :=
  match sortComparingExc (tabCompareByUrlP000 lc) tabs with
  | .error _ =>
    { signals := [Signal.failure], fetchCalled := false, moves := [] }
  | .ok sorted =>
    { signals := [Signal.success], fetchCalled := false,
      moves := (List.range sorted.length).zip sorted |>.map
        (fun p => { ids := [p.2.id], index := leftmostIndex tabs + p.1 }) }

/-- `sortSelectedTabsByDate` of `src/unnamed/part_001` (lines 164-174)
composed with its `fetchTabDates` and `sortTabsByDate` (lines 136-162):
no working badge; a null snapshot makes `fetchTabDates` throw on
`tabs.map`, caught into a failure badge; otherwise the resolver's signals
are followed by `sortTabsByDate`'s unconditional success badge (its
per-move failures are swallowed). -/
def sortSelectedTabsByDateP001 (queryR : Except Unit (List Tab))
    (resp : FetchOutcome) : List Signal :=
  match getSelectedTabsP001 queryR with
  | none => [Signal.failure]
  | some tabs => (fetchTabDatesP001 tabs resp).2 ++ [Signal.success]

/-- A badge signal is terminal when it is `success` or `failure`. -/
def isTerminal (s : Signal) : Bool :=
  match s with
  | .working => false
  | .success => true
  | .failure => true

/-- Number of terminal signals in a badge trace. -/
def terminalCount (l : List Signal) : Nat := l.countP isTerminal

/-- `chrome.tabs.onUpdated.addListener`: registry modelled as the list of
registered listener identities. -/
def addListener (reg : List Nat) (lid : Nat) : List Nat := reg ++ [lid]

/-- `chrome.tabs.onUpdated.removeListener`: removes the listener if
registered, no-op otherwise. -/
def removeListener (reg : List Nat) (lid : Nat) : List Nat := reg.erase lid

/-- How one pending tab's refresh-wait race ends: the `status: 'complete'`
update arrived, or the 15000 ms timeout elapsed. -/
inductive WaitOutcome where
  | reloaded
  | timedOut
deriving DecidableEq, Repr

/-- Effect on the listener registry of one refresh-wait of bg
`fetchTabDates` (lines 177-195): the listener is registered, and removed
only inside the `status === 'complete'` branch — the timeout branch leaves
it in place. -/
def reloadWait (reg : List Nat) (lid : Nat) (o : WaitOutcome) : List Nat :=
  let reg1 := addListener reg lid
  match o with
  | .reloaded => removeListener reg1 lid
  | .timedOut => reg1

/-- Effect of one refresh-wait of part_002 `fetchTabDates` (lines 110-135):
identical race, but a `.finally` handler removes the listener regardless of
which branch won (removal is a no-op if it already happened). -/
def reloadWaitP002 (reg : List Nat) (lid : Nat) (o : WaitOutcome) : List Nat :=
  removeListener (reloadWait reg lid o) lid

/-- Constructor for the concrete tabs used in the test vectors. -/
def mkTab (i : Nat) (idx : Int) (u : String) : Tab :=
  { id := i, index := idx, url := some u, title := none }

/-- Attribute record with only a date, for the test vectors. -/
def mkInfo (i : Nat) (d : Option ParsedDate) : TabInfo :=
  { tabId := i, url := none, title := none, dateString := none, date := d }

/-- The spec's temporal example: item 1 (A) dated 2024-01-01, item 2 (B)
undated, item 3 (C) dated 2023-05-05. -/
def exAttrIx : List (Nat × TabInfo) :=
  [(1, mkInfo 1 (some { year := some 2024, month := some 1, day := some 1 })),
   (2, mkInfo 2 none),
   (3, mkInfo 3 (some { year := some 2023, month := some 5, day := some 5 }))]

/-- A two-tab selection with distinct urls, for the textual-mode witness. -/
def exUrlTabs : List Tab := [mkTab 1 0 "bb", mkTab 2 1 "a"]

/-- A tab with no `url`, for the textual-mode missing-locator vectors. -/
def noUrlTab : Tab := { id := 9, index := 0, url := none, title := none }

/-- A length-difference comparator: one concrete consistent instantiation
of the host's `localeCompare` ordering, used in witnesses. -/
def lcLen (a b : String) : Int := (a.length : Int) - b.length

/-- The spec's repositioner example window: ten tabs, the selected ids
20, 21, 22 sitting at positions 5, 7 and 9. -/
def exWindow : List Nat := [101, 102, 103, 104, 105, 20, 106, 21, 107, 22]

/-- The spec's repositioner example target order: item@9, item@5, item@7. -/
def exOrder : List Nat := [22, 20, 21]

/-! ### Generic facts about the stable sort model -/

theorem insertComparing_perm {α : Type*} (cmp : α → α → Int) (x : α) (l : List α) :
    (insertComparing cmp x l).Perm (x :: l) := by
  induction l with
  | nil => simp [insertComparing]
  | cons y ys ih =>
    by_cases h : cmp x y ≤ 0
    · simp [insertComparing, h]
    · simp only [insertComparing, if_neg h]
      exact (ih.cons y).trans (List.Perm.swap x y ys)

theorem mem_insertComparing {α : Type*} {cmp : α → α → Int} {x z : α} {l : List α} :
    z ∈ insertComparing cmp x l ↔ z = x ∨ z ∈ l := by
  rw [(insertComparing_perm cmp x l).mem_iff, List.mem_cons]

theorem sortComparing_perm {α : Type*} (cmp : α → α → Int) (l : List α) :
    (sortComparing cmp l).Perm l := by
  induction l with
  | nil => rfl
  | cons x xs ih =>
    exact (insertComparing_perm cmp x (sortComparing cmp xs)).trans (ih.cons x)

theorem insertComparing_pairwise {α : Type*} (cmp : α → α → Int)
    (hasym : ∀ a b, ¬ cmp a b ≤ 0 → cmp b a ≤ 0)
    (htrans : ∀ a b c, cmp a b ≤ 0 → cmp b c ≤ 0 → cmp a c ≤ 0)
    (x : α) (l : List α) (hl : l.Pairwise (fun a b => cmp a b ≤ 0)) :
    (insertComparing cmp x l).Pairwise (fun a b => cmp a b ≤ 0) := by
  induction l with
  | nil => simp [insertComparing]
  | cons y ys ih =>
    rcases List.pairwise_cons.mp hl with ⟨hy, hys⟩
    by_cases h : cmp x y ≤ 0
    · simp only [insertComparing, if_pos h]
      refine List.pairwise_cons.mpr ⟨?_, hl⟩
      intro z hz
      rcases List.mem_cons.mp hz with rfl | hz'
      · exact h
      · exact htrans x y z h (hy z hz')
    · simp only [insertComparing, if_neg h]
      refine List.pairwise_cons.mpr ⟨?_, ih hys⟩
      intro z hz
      rcases mem_insertComparing.mp hz with hzx | hz'
      · rw [hzx]; exact hasym x y h
      · exact hy z hz'

theorem sortComparing_pairwise {α : Type*} (cmp : α → α → Int)
    (hasym : ∀ a b, ¬ cmp a b ≤ 0 → cmp b a ≤ 0)
    (htrans : ∀ a b c, cmp a b ≤ 0 → cmp b c ≤ 0 → cmp a c ≤ 0)
    (l : List α) :
    (sortComparing cmp l).Pairwise (fun a b => cmp a b ≤ 0) := by
  induction l with
  | nil => simp [sortComparing]
  | cons x xs ih => exact insertComparing_pairwise cmp hasym htrans x _ ih

theorem insertComparing_filter {α : Type*} (cmp : α → α → Int) (p : α → Bool)
    (x : α) (l : List α)
    (hp : ∀ y ∈ l, p x = true → p y = true → cmp x y ≤ 0) :
    (insertComparing cmp x l).filter p = (x :: l).filter p := by
  induction l with
  | nil => rfl
  | cons y ys ih =>
    by_cases h : cmp x y ≤ 0
    · simp [insertComparing, h]
    · simp only [insertComparing, if_neg h]
      have hys := ih (fun y' hy' => hp y' (List.mem_cons_of_mem _ hy'))
      by_cases hpx : p x = true
      · have hpy : p y = false := by
          rcases hy : p y with _ | _
          · rfl
          · exact absurd (hp y (List.mem_cons_self y ys) hpx hy) h
        simp [List.filter_cons, hpx, hpy] at hys ⊢
        exact hys
      · have hpx' : p x = false := by
          rcases hx : p x with _ | _
          · rfl
          · exact absurd hx hpx
        rcases hpy : p y with _ | _
        · simp [List.filter_cons, hpx', hpy] at hys ⊢
          exact hys
        · simp [List.filter_cons, hpx', hpy] at hys ⊢
          exact hys

theorem sortComparing_filter {α : Type*} (cmp : α → α → Int) (p : α → Bool)
    (l : List α) (hp : ∀ a b, p a = true → p b = true → cmp a b ≤ 0) :
    (sortComparing cmp l).filter p = l.filter p := by
  induction l with
  | nil => rfl
  | cons x xs ih =>
    have h1 := insertComparing_filter cmp p x (sortComparing cmp xs)
      (fun y _ hx hy => hp x y hx hy)
    rw [sortComparing, h1, List.filter_cons, List.filter_cons, ih]

theorem insertComparingExc_ok {α : Type*} (cmpE : α → α → Except Unit Int)
    (cmp : α → α → Int) (P : α → Prop)
    (hagree : ∀ a b, P a → P b → cmpE a b = .ok (cmp a b))
    (x : α) (hx : P x) :
    ∀ l : List α, (∀ y ∈ l, P y) →
      insertComparingExc cmpE x l = .ok (insertComparing cmp x l) := by
  intro l
  induction l with
  | nil => intro _; rfl
  | cons y ys ih =>
    intro hl
    have hy : P y := hl y (List.mem_cons_self y ys)
    have hys : ∀ z ∈ ys, P z := fun z hz => hl z (List.mem_cons_of_mem y hz)
    by_cases h : cmp x y ≤ 0
    · simp only [insertComparingExc, hagree x y hx hy, insertComparing, if_pos h]
    · simp only [insertComparingExc, hagree x y hx hy, insertComparing, if_neg h,
        ih hys]

theorem sortComparingExc_ok {α : Type*} (cmpE : α → α → Except Unit Int)
    (cmp : α → α → Int) (P : α → Prop)
    (hagree : ∀ a b, P a → P b → cmpE a b = .ok (cmp a b)) :
    ∀ l : List α, (∀ x ∈ l, P x) →
      sortComparingExc cmpE l = .ok (sortComparing cmp l) := by
  intro l
  induction l with
  | nil => intro _; rfl
  | cons x xs ih =>
    intro hl
    have hx : P x := hl x (List.mem_cons_self x xs)
    have hxs : ∀ z ∈ xs, P z := fun z hz => hl z (List.mem_cons_of_mem x hz)
    have hsorted : ∀ z ∈ sortComparing cmp xs, P z := fun z hz =>
      hxs z ((sortComparing_perm cmp xs).mem_iff.mp hz)
    simp only [sortComparingExc, ih hxs, sortComparing]
    exact insertComparingExc_ok cmpE cmp P hagree x hx (sortComparing cmp xs) hsorted

/-! ### Claims about the comparators -/

/-- C1: the temporal comparator of `sortSelectedTabsByDate` orders two
dated items ascending by point-in-time (equal instants compare equal, so
the stable sort keeps their snapshot order), places a dated item before an
undated one, and returns equal on two undated items; sorting the spec's
example `[A(2024-01-01), B(no date), C(2023-05-05)]` yields `[C, A, B]`. -/
theorem claim_C1 :
    (∀ m a b, tabCompareByDate m a b =
      compareDates (getComparableDate ((List.lookup a.id m).bind (·.date)))
                   (getComparableDate ((List.lookup b.id m).bind (·.date))))
    ∧ (∀ x y : Int, (compareDates (some x) (some y) < 0 ↔ x < y)
        ∧ (compareDates (some x) (some y) = 0 ↔ x = y)
        ∧ (0 < compareDates (some x) (some y) ↔ y < x))
    ∧ (∀ x : Int, compareDates (some x) none < 0 ∧ 0 < compareDates none (some x))
    ∧ compareDates none none = 0
    ∧ sortComparing (tabCompareByDate exAttrIx)
        [mkTab 1 0 "a", mkTab 2 1 "b", mkTab 3 2 "c"]
      = [mkTab 3 2 "c", mkTab 1 0 "a", mkTab 2 1 "b"] := by
  refine ⟨fun m a b => rfl, fun x y => ⟨?_, ?_, ?_⟩, fun x => ⟨?_, ?_⟩, rfl, by decide⟩
  · simp only [compareDates]; omega
  · simp only [compareDates]; omega
  · simp only [compareDates]; omega
  · simp only [compareDates]; omega
  · simp only [compareDates]; omega

/-- C2 (amended): `part_002`'s `getComparableDate` needs only a year — an
absent (or zero) month or day defaults to 1 — and returns `null` when the
structure or the year is absent; the `floribundus_background.js` variant
instead returns `null` unless year, month and day are all present. -/
theorem claim_C2 :
    getComparableDateP002 none = none
    ∧ (∀ m d, getComparableDateP002 (some { year := none, month := m, day := d }) = none)
    ∧ (∀ y m d, getComparableDateP002 (some { year := some y, month := m, day := d })
        = some (dateUTCms y (jsOrInt m 1) (jsOrInt d 1)))
    ∧ (∀ y, getComparableDateP002 (some { year := some y, month := none, day := none })
        = getComparableDateP002 (some { year := some y, month := some 1, day := some 1 }))
    ∧ (∀ y m d, getComparableDate (some { year := some y, month := some m, day := some d })
        = some (dateUTCms y m d))
    ∧ getComparableDate none = none
    ∧ (∀ y m, getComparableDate (some { year := y, month := m, day := none }) = none)
    ∧ (∀ y d, getComparableDate (some { year := y, month := none, day := d }) = none)
    ∧ (∀ m d, getComparableDate (some { year := none, month := m, day := d }) = none) := by
  refine ⟨rfl, fun m d => rfl, fun y m d => rfl, ?_, fun y m d => rfl, rfl, ?_, ?_, ?_⟩
  · intro y; simp [getComparableDateP002, jsOrInt]
  · intro y m; cases y <;> cases m <;> rfl
  · intro y d; cases y <;> cases d <;> rfl
  · intro m d; cases m <;> cases d <;> rfl

/-- C2 counterexample: the `floribundus_background.js` `getComparableDate`
(the code cited by the claim) treats a year-only date as absent — it does
not default month and day to 1 as the claim states. -/
theorem claim_C2_counterexample :
    getComparableDate (some { year := some 2024, month := none, day := none }) = none
    ∧ (getComparableDate
        (some { year := some 2024, month := none, day := none })).isSome = false :=
  ⟨rfl, rfl⟩

/-- C7 (amended): the `floribundus_background.js` `getSelectedTabs` always
returns a sequence sorted ascending by `index` — a permutation of the
queried tabs — and degrades a failed query to the empty selection; the
`part_001` variant instead returns the host's order unsorted and `null`
(not a sequence) on failure. -/
theorem claim_C7 :
    (∀ queryR, (getSelectedTabs queryR).Pairwise (fun a b => a.index ≤ b.index))
    ∧ getSelectedTabs (Except.error ()) = []
    ∧ (∀ tabs, (getSelectedTabs (Except.ok tabs)).Perm tabs) := by
  refine ⟨?_, rfl, fun tabs => sortComparing_perm _ tabs⟩
  intro queryR
  match queryR with
  | .error _ => simp [getSelectedTabs]
  | .ok tabs =>
    have h := sortComparing_pairwise (fun a b : Tab => a.index - b.index)
      (fun a b h => by
        have h' : ¬ a.index - b.index ≤ 0 := h
        show b.index - a.index ≤ 0
        omega)
      (fun a b c h1 h2 => by
        have h1' : a.index - b.index ≤ 0 := h1
        have h2' : b.index - c.index ≤ 0 := h2
        show a.index - c.index ≤ 0
        omega) tabs
    refine h.imp ?_
    intro a b hab
    have hab' : a.index - b.index ≤ 0 := hab
    omega

/-- C7 counterexample: `part_001`'s `getSelectedTabs` returns `null` when
the host cannot enumerate tabs, and returns an out-of-order enumeration
unsorted. -/
theorem claim_C7_counterexample :
    getSelectedTabsP001 (Except.error ()) = none
    ∧ getSelectedTabsP001 (Except.ok [mkTab 1 1 "b", mkTab 2 0 "a"])
        = some [mkTab 1 1 "b", mkTab 2 0 "a"]
    ∧ ¬ ([mkTab 1 1 "b", mkTab 2 0 "a"].Pairwise (fun a b : Tab => a.index ≤ b.index)) := by
  refine ⟨rfl, rfl, by decide⟩

/-- C8 (amended): for any consistent locale collation `lc` and any
selection of at least two tabs, the `floribundus_background.js` sort with
the `url || ''` key is non-decreasing in `lc`, items with equal keys keep
their snapshot order (the filtered subsequence at each key is unchanged),
and the output is a permutation of the input.  The cited `part_000`
variant has no `|| ''` fallback: it agrees with the bg sort whenever every
tab has a `url`, but a selection with a missing `url` throws out of its
comparator instead of sorting with the or-empty key. -/
theorem claim_C8 (lc : String → String → Int)
    (hrefl : ∀ s, lc s s = 0)
    (hasym : ∀ s t, ¬ lc s t ≤ 0 → lc t s ≤ 0)
    (htrans : ∀ s t u, lc s t ≤ 0 → lc t u ≤ 0 → lc s u ≤ 0)
    (tabs : List Tab) (_hlen : 2 ≤ tabs.length) :
    (sortComparing (tabCompareByUrl lc) tabs).Pairwise
        (fun a b => lc (urlOrEmpty a) (urlOrEmpty b) ≤ 0)
    ∧ (∀ k : String, (sortComparing (tabCompareByUrl lc) tabs).filter
          (fun t => urlOrEmpty t == k) = tabs.filter (fun t => urlOrEmpty t == k))
    ∧ (sortComparing (tabCompareByUrl lc) tabs).Perm tabs
    ∧ ((∀ t ∈ tabs, t.url.isSome = true) →
        sortComparingExc (tabCompareByUrlP000 lc) tabs
          = Except.ok (sortComparing (tabCompareByUrl lc) tabs)) := by
  refine ⟨?_, ?_, sortComparing_perm _ tabs, ?_⟩
  · exact sortComparing_pairwise (tabCompareByUrl lc)
      (fun a b h => hasym _ _ h) (fun a b c h1 h2 => htrans _ _ _ h1 h2) tabs
  · intro k
    refine sortComparing_filter (tabCompareByUrl lc) _ tabs ?_
    intro a b ha hb
    have ha' : urlOrEmpty a = k := by simpa using ha
    have hb' : urlOrEmpty b = k := by simpa using hb
    simp only [tabCompareByUrl, ha', hb', hrefl]
    exact le_refl 0
  · intro hall
    refine sortComparingExc_ok _ _ (fun t => t.url.isSome = true) ?_ tabs hall
    intro a b ha hb
    rcases hu : a.url with _ | ua
    · rw [hu] at ha
      simp at ha
    · rcases hv : b.url with _ | ub
      · rw [hv] at hb
        simp at hb
      · simp [tabCompareByUrlP000, tabCompareByUrl, urlOrEmpty, jsArgString, hu, hv]

/-- C8 witness: the length-difference collation is consistent, and the
theorem applies to a concrete two-tab selection. -/
theorem claim_C8_witness :
    ((∀ s, lcLen s s = 0)
      ∧ (∀ s t, ¬ lcLen s t ≤ 0 → lcLen t s ≤ 0)
      ∧ (∀ s t u, lcLen s t ≤ 0 → lcLen t u ≤ 0 → lcLen s u ≤ 0)
      ∧ 2 ≤ exUrlTabs.length)
    ∧ ((sortComparing (tabCompareByUrl lcLen) exUrlTabs).Pairwise
          (fun a b => lcLen (urlOrEmpty a) (urlOrEmpty b) ≤ 0)
        ∧ (∀ k : String, (sortComparing (tabCompareByUrl lcLen) exUrlTabs).filter
              (fun t => urlOrEmpty t == k)
            = exUrlTabs.filter (fun t => urlOrEmpty t == k))
        ∧ (sortComparing (tabCompareByUrl lcLen) exUrlTabs).Perm exUrlTabs
        ∧ ((∀ t ∈ exUrlTabs, t.url.isSome = true) →
            sortComparingExc (tabCompareByUrlP000 lcLen) exUrlTabs
              = Except.ok (sortComparing (tabCompareByUrl lcLen) exUrlTabs))) :=
  ⟨⟨fun s => by simp [lcLen],
    fun s t h => by simp only [lcLen] at *; omega,
    fun s t u h1 h2 => by simp only [lcLen] at *; omega,
    by decide⟩,
   claim_C8 lcLen (fun s => by simp [lcLen])
     (fun s t h => by simp only [lcLen] at *; omega)
     (fun s t u h1 h2 => by simp only [lcLen] at *; omega)
     exUrlTabs (by decide)⟩

/-- C8 counterexample: the claim's cited `part_000` comparator does not
use the or-empty key: with a missing `url` on the left it throws
(`.error`) where the claimed key function would compare with `""`, so the
whole cited sort aborts into a failure badge with no sorted output and no
moves. -/
theorem claim_C8_counterexample :
    tabCompareByUrlP000 lcLen noUrlTab (mkTab 2 1 "a") = Except.error ()
    ∧ tabCompareByUrl lcLen noUrlTab (mkTab 2 1 "a") = lcLen "" "a"
    ∧ sortComparingExc (tabCompareByUrlP000 lcLen) [noUrlTab, mkTab 2 1 "a"]
        = Except.error ()
    ∧ (sortSelectedTabsByUrlP000 lcLen [noUrlTab, mkTab 2 1 "a"]).signals
        = [Signal.failure]
    ∧ (sortSelectedTabsByUrlP000 lcLen [noUrlTab, mkTab 2 1 "a"]).moves = [] :=
  ⟨rfl, rfl, rfl, rfl, rfl⟩

/-- C9 (amended): in the `part_002` variant every refresh-wait removes its
ready-notification listener after the wait completes, whether it ended by
reload or by timeout; in the `floribundus_background.js` variant the
listener is removed only on reload, so a timed-out wait leaves it
registered. -/
theorem claim_C9 (reg : List Nat) (lid : Nat) (o : WaitOutcome) (h : lid ∉ reg) :
    lid ∉ reloadWaitP002 reg lid o := by
  have h1 : (reg ++ [lid]).erase lid = reg := by
    rw [List.erase_append_right _ h]
    simp
  cases o with
  | reloaded =>
    simp only [reloadWaitP002, reloadWait, addListener, removeListener, h1]
    rw [List.erase_of_not_mem h]
    exact h
  | timedOut =>
    simp only [reloadWaitP002, reloadWait, addListener, removeListener, h1]
    exact h

/-- C9 witness: a fresh listener (id 0, empty registry) is unregistered
after a timed-out wait in the `part_002` variant. -/
theorem claim_C9_witness :
    (0 ∉ ([] : List Nat)) ∧ 0 ∉ reloadWaitP002 [] 0 WaitOutcome.timedOut :=
  ⟨by decide, claim_C9 [] 0 WaitOutcome.timedOut (by decide)⟩

/-- C9 counterexample: in the `floribundus_background.js` variant a
refresh-wait that ends in timeout leaves its listener registered,
contradicting the claim that no timed-out wait does. -/
theorem claim_C9_counterexample :
    reloadWait [] 0 WaitOutcome.timedOut = [0]
    ∧ 0 ∈ reloadWait [] 0 WaitOutcome.timedOut :=
  ⟨rfl, by decide⟩

/-! ### Claims about the resolver and the status-signal protocol -/

/-- A resolver round trip is a total failure when the call throws, the
response is falsy, the response carries a truthy `error`, or it has no
array under `data`. -/
def badResponse (resp : FetchOutcome) : Prop :=
  match resp with
  | .error _ => True
  | .ok none => True
  | .ok (some r) => respTruthyError r = true ∨ r.data = none

instance (resp : FetchOutcome) : Decidable (badResponse resp) := by
  unfold badResponse
  match resp with
  | .error _ => exact inferInstanceAs (Decidable True)
  | .ok none => exact inferInstanceAs (Decidable True)
  | .ok (some r) => exact inferInstanceAs (Decidable (_ ∨ _))

/-- The `floribundus_background.js` resolver never emits a badge signal. -/
theorem fetchTabDates_signals_nil (tabs : List Tab) (hasConfig : Bool)
    (resp : FetchOutcome) : (fetchTabDates tabs hasConfig resp).2 = [] := by
  unfold fetchTabDates
  cases hasConfig with
  | false => rfl
  | true =>
    match resp with
    | .error _ => rfl
    | .ok none => rfl
    | .ok (some r) =>
      by_cases he : respTruthyError r = true
      · simp [he]
      · cases hd : r.data <;> simp [he, hd]

/-- C4 (amended): on every total-failure outcome the resolver still
returns one attribute per input item, each absent; the `part_001` variant
additionally flashes a failure badge, while the cited
`floribundus_background.js` variant returns the fallback index without
signalling failure at all. -/
theorem claim_C4 (tabs : List Tab) (resp : FetchOutcome) (h : badResponse resp) :
    fetchTabDates tabs true resp = (tabs.map (fun t => (t.id, fallbackInfo t)), [])
    ∧ (fetchTabDates tabs true resp).1.length = tabs.length
    ∧ (∀ p ∈ (fetchTabDates tabs true resp).1, attrAbsent p.2 = true)
    ∧ fetchTabDatesP001 tabs resp = (tabs.map fallbackInfoP001, [Signal.failure])
    ∧ (fetchTabDatesP001 tabs resp).1.length = tabs.length
    ∧ (∀ ti ∈ (fetchTabDatesP001 tabs resp).1, attrAbsent ti = true) := by
  have hbg : fetchTabDates tabs true resp
      = (tabs.map (fun t => (t.id, fallbackInfo t)), []) := by
    unfold fetchTabDates
    rcases resp with e | o
    · rfl
    · rcases o with _ | r
      · rfl
      · have h' : respTruthyError r = true ∨ r.data = none := h
        rcases h' with he | hd
        · simp [he]
        · by_cases he : respTruthyError r = true
          · simp [he]
          · simp [he, hd]
  have hp1 : fetchTabDatesP001 tabs resp
      = (tabs.map fallbackInfoP001, [Signal.failure]) := by
    unfold fetchTabDatesP001
    rcases resp with e | o
    · rfl
    · rcases o with _ | r
      · rfl
      · have h' : respTruthyError r = true ∨ r.data = none := h
        rcases h' with he | hd
        · cases hd : r.data with
          | none => simp [hd]
          | some items => simp [hd, he]
        · simp [hd]
  refine ⟨hbg, ?_, ?_, hp1, ?_, ?_⟩
  · rw [hbg]; simp
  · rw [hbg]
    intro p hp
    rcases List.mem_map.mp hp with ⟨t, _, rfl⟩
    rfl
  · rw [hp1]; simp
  · rw [hp1]
    intro ti hti
    rcases List.mem_map.mp hti with ⟨t, _, rfl⟩
    rfl

/-- C4 witness: two tabs, falsy response. -/
theorem claim_C4_witness :
    badResponse (Except.ok none)
    ∧ (fetchTabDates [mkTab 1 0 "a", mkTab 2 1 "b"] true (Except.ok none)
        = ([(1, fallbackInfo (mkTab 1 0 "a")), (2, fallbackInfo (mkTab 2 1 "b"))], [])
      ∧ (fetchTabDates [mkTab 1 0 "a", mkTab 2 1 "b"] true (Except.ok none)).1.length = 2
      ∧ (∀ p ∈ (fetchTabDates [mkTab 1 0 "a", mkTab 2 1 "b"] true (Except.ok none)).1,
          attrAbsent p.2 = true)
      ∧ fetchTabDatesP001 [mkTab 1 0 "a", mkTab 2 1 "b"] (Except.ok none)
        = ([fallbackInfoP001 (mkTab 1 0 "a"), fallbackInfoP001 (mkTab 2 1 "b")],
           [Signal.failure])
      ∧ (fetchTabDatesP001 [mkTab 1 0 "a", mkTab 2 1 "b"] (Except.ok none)).1.length = 2
      ∧ (∀ ti ∈ (fetchTabDatesP001 [mkTab 1 0 "a", mkTab 2 1 "b"] (Except.ok none)).1,
          attrAbsent ti = true)) :=
  ⟨by decide, claim_C4 [mkTab 1 0 "a", mkTab 2 1 "b"] (Except.ok none) (by decide)⟩

/-- C4 counterexample: the claim says transport-error and malformed cases
signal failure to the Status Signal collaborator, but the cited
`floribundus_background.js` `fetchTabDates` emits no signal on a malformed
(data-less) response, and the surrounding operation then reports success. -/
theorem claim_C4_counterexample :
    (fetchTabDates [mkTab 1 0 "a", mkTab 2 1 "b"] true
        (Except.ok (some { error := none, data := none }))).2 = []
    ∧ (sortSelectedTabsByDate [mkTab 1 0 "a", mkTab 2 1 "b"] true
        (Except.ok (some { error := none, data := none })) true).signals
      = [Signal.working, Signal.success] :=
  ⟨rfl, rfl⟩

/-- C5 (amended): in the `floribundus_background.js` variant every sort
invocation (textual or temporal) puts the working signal first and emits
exactly one terminal signal on every path; the `part_001` variant sets no
working indicator, and a resolver total failure produces a failure signal
followed by a success signal — two terminals. -/
theorem claim_C5 :
    (∀ lc tabs moveOk,
        (sortSelectedTabsByUrl lc tabs moveOk).signals.head? = some Signal.working
        ∧ terminalCount (sortSelectedTabsByUrl lc tabs moveOk).signals = 1)
    ∧ (∀ tabs hasConfig resp moveOk,
        (sortSelectedTabsByDate tabs hasConfig resp moveOk).signals.head?
            = some Signal.working
        ∧ terminalCount (sortSelectedTabsByDate tabs hasConfig resp moveOk).signals = 1)
    ∧ (∀ tabs resp, badResponse resp →
        sortSelectedTabsByDateP001 (Except.ok tabs) resp
          = [Signal.failure, Signal.success]) := by
  refine ⟨?_, ?_, ?_⟩
  · intro lc tabs moveOk
    unfold sortSelectedTabsByUrl
    by_cases h : tabs.length < 2
    · simp [h, terminalCount, List.countP, List.countP.go, isTerminal]
    · cases moveOk <;>
        simp [h, terminalCount, List.countP, List.countP.go, isTerminal]
  · intro tabs hasConfig resp moveOk
    unfold sortSelectedTabsByDate
    by_cases h : tabs.length < 2
    · simp [h, terminalCount, List.countP, List.countP.go, isTerminal]
    · rw [if_neg h]
      have hs := fetchTabDates_signals_nil tabs hasConfig resp
      cases moveOk <;>
        simp [hs, terminalCount, List.countP, List.countP.go, isTerminal]
  · intro tabs resp h
    unfold sortSelectedTabsByDateP001 getSelectedTabsP001
    have hsig : (fetchTabDatesP001 tabs resp).2 = [Signal.failure] := by
      unfold fetchTabDatesP001
      rcases resp with e | o
      · rfl
      · rcases o with _ | r
        · rfl
        · have h' : respTruthyError r = true ∨ r.data = none := h
          rcases h' with he | hd
          · cases hd : r.data with
            | none => simp [hd]
            | some items => simp [hd, he]
          · simp [hd]
    simp [hsig]

/-- C5 witness: a concrete bad response for the `part_001` conjunct (the
two universally quantified conjuncts are applied at concrete inputs as
well). -/
theorem claim_C5_witness :
    badResponse (Except.error ())
    ∧ ((sortSelectedTabsByUrl lcLen exUrlTabs true).signals.head?
          = some Signal.working
        ∧ terminalCount (sortSelectedTabsByUrl lcLen exUrlTabs true).signals = 1)
    ∧ sortSelectedTabsByDateP001 (Except.ok exUrlTabs) (Except.error ())
        = [Signal.failure, Signal.success] :=
  ⟨by decide,
   claim_C5.1 lcLen exUrlTabs true,
   claim_C5.2.2 exUrlTabs (Except.error ()) (by decide)⟩

/-- C5 counterexample: on a resolver total failure the `part_001` variant
emits two terminal signals (failure then success) and never a working
signal, contradicting "working first, exactly one terminal". -/
theorem claim_C5_counterexample :
    sortSelectedTabsByDateP001 (Except.ok [mkTab 1 0 "a", mkTab 2 1 "b"])
        (Except.ok none) = [Signal.failure, Signal.success]
    ∧ terminalCount (sortSelectedTabsByDateP001 (Except.ok [mkTab 1 0 "a", mkTab 2 1 "b"])
        (Except.ok none)) = 2
    ∧ (sortSelectedTabsByDateP001 (Except.ok [mkTab 1 0 "a", mkTab 2 1 "b"])
        (Except.ok none)).head? ≠ some Signal.working := by
  refine ⟨rfl, rfl, by decide⟩

/-- C6 (amended): in the `floribundus_background.js` variant a selection
of 0 or 1 items short-circuits both operations to a success signal with no
resolver request and no moves; `part_001`'s `sortSelectedTabsByUrl`
instead reports failure on an empty selection, and on a single-item
selection proceeds to issue one move and report success. -/
theorem claim_C6 (lc : String → String → Int) (tabs : List Tab)
    (hasConfig : Bool) (resp : FetchOutcome) (moveOk : Bool)
    (hlen : tabs.length < 2) :
    sortSelectedTabsByUrl lc tabs moveOk
      = { signals := [Signal.working, Signal.success], fetchCalled := false, moves := [] }
    ∧ sortSelectedTabsByDate tabs hasConfig resp moveOk
      = { signals := [Signal.working, Signal.success], fetchCalled := false, moves := [] }
    ∧ (sortSelectedTabsByUrlP001 lc (Except.ok [])).signals = [Signal.failure]
    ∧ (sortSelectedTabsByUrlP001 lc (Except.ok [])).moves = []
    ∧ (∀ t : Tab, (sortSelectedTabsByUrlP001 lc (Except.ok [t])).signals = [Signal.success]
        ∧ (sortSelectedTabsByUrlP001 lc (Except.ok [t])).moves
            = [{ ids := [t.id], index := t.index }]) := by
  refine ⟨?_, ?_, rfl, rfl, ?_⟩
  · unfold sortSelectedTabsByUrl
    rw [if_pos hlen]
  · unfold sortSelectedTabsByDate
    rw [if_pos hlen]
  · intro t
    constructor
    · rfl
    · have hr : List.range 1 = [0] := rfl
      simp [sortSelectedTabsByUrlP001, getSelectedTabsP001, sortComparing,
        insertComparing, leftmostIndex, hr]

/-- C6 witness: a single-item selection. -/
theorem claim_C6_witness :
    ([mkTab 1 0 "a"] : List Tab).length < 2
    ∧ (sortSelectedTabsByUrl lcLen [mkTab 1 0 "a"] true
        = { signals := [Signal.working, Signal.success], fetchCalled := false, moves := [] }
      ∧ sortSelectedTabsByDate [mkTab 1 0 "a"] true (Except.ok none) true
        = { signals := [Signal.working, Signal.success], fetchCalled := false, moves := [] }
      ∧ (sortSelectedTabsByUrlP001 lcLen (Except.ok [])).signals = [Signal.failure]
      ∧ (sortSelectedTabsByUrlP001 lcLen (Except.ok [])).moves = []
      ∧ (∀ t : Tab, (sortSelectedTabsByUrlP001 lcLen (Except.ok [t])).signals
            = [Signal.success]
          ∧ (sortSelectedTabsByUrlP001 lcLen (Except.ok [t])).moves
              = [{ ids := [t.id], index := t.index }])) :=
  ⟨by decide,
   claim_C6 lcLen [mkTab 1 0 "a"] true (Except.ok none) true (by decide)⟩

/-- C6 counterexample: `part_001`'s `sortSelectedTabsByUrl` reports
failure (not success) on an empty selection, and issues a move (rather
than none) for a single-item selection. -/
theorem claim_C6_counterexample :
    (sortSelectedTabsByUrlP001 lcLen (Except.ok [])).signals = [Signal.failure]
    ∧ (sortSelectedTabsByUrlP001 lcLen (Except.ok [mkTab 7 3 "x"])).moves.length = 1
    ∧ (sortSelectedTabsByUrlP001 lcLen (Except.ok [mkTab 7 3 "x"])).moves
        = [{ ids := [7], index := 3 }] := by
  refine ⟨rfl, rfl, by decide⟩

/-! ### Facts about the window move model -/

theorem insertIdx_append_length {α : Type*} (l₁ l₂ : List α) (x : α) :
    (l₁ ++ l₂).insertIdx l₁.length x = l₁ ++ x :: l₂ := by
  induction l₁ with
  | nil => rfl
  | cons a as ih => simp [List.insertIdx_succ_cons, ih]

theorem contains_eq_decide (l : List Nat) (x : Nat) :
    l.contains x = decide (x ∈ l) := by
  by_cases h : x ∈ l
  · have he : l.elem x = true := List.elem_iff.mpr h
    simp [List.contains, he, h]
  · have he : l.elem x = false := by
      cases hx : l.elem x
      · rfl
      · exact absurd (List.elem_iff.mp hx) h
    simp [List.contains, he, h]

theorem contains_reverse (l : List Nat) (x : Nat) :
    l.reverse.contains x = l.contains x := by
  rw [contains_eq_decide, contains_eq_decide]
  simp [List.mem_reverse]

theorem filter_contains_cons_erase (pre : List Nat) (a : Nat) (rest : List Nat)
    (hnd : pre.Nodup) :
    pre.filter (fun x => !((a :: rest).contains x)) =
      (pre.erase a).filter (fun x => !(rest.contains x)) := by
  rw [hnd.erase_eq_filter a, List.filter_filter]
  refine List.filter_congr ?_
  intro x _
  rw [contains_eq_decide, contains_eq_decide]
  by_cases hxa : x = a <;> by_cases hxr : x ∈ rest <;>
    simp [hxa, hxr, List.mem_cons, bne]

theorem filter_not_contains_length :
    ∀ (ids pre : List Nat), ids.Nodup → pre.Nodup → (∀ x ∈ ids, x ∈ pre) →
      (pre.filter (fun x => !(ids.contains x))).length = pre.length - ids.length := by
  intro ids
  induction ids with
  | nil =>
    intro pre _ _ _
    simp [List.contains]
  | cons a rest ih =>
    intro pre hnd hpre hsub
    have hna : a ∉ rest := (List.nodup_cons.mp hnd).1
    have hrest : rest.Nodup := (List.nodup_cons.mp hnd).2
    have ha : a ∈ pre := hsub a (List.mem_cons_self a rest)
    have hsub' : ∀ x ∈ rest, x ∈ pre.erase a := by
      intro x hx
      have hne : x ≠ a := fun he => hna (he ▸ hx)
      exact (List.mem_erase_of_ne hne).mpr (hsub x (List.mem_cons_of_mem a hx))
    rw [filter_contains_cons_erase pre a rest hpre,
      ih (pre.erase a) hrest (hpre.erase a) hsub',
      List.length_erase_of_mem ha]
    have hp : 1 ≤ pre.length := List.length_pos.mpr (List.ne_nil_of_mem ha)
    simp only [List.length_cons]
    omega

theorem moveSeqRev_collapse :
    ∀ (rids pre tail : List Nat), rids.Nodup →
      (∀ x ∈ rids, x ∈ pre) → (∀ x ∈ rids, x ∉ tail) → pre.Nodup →
      rids.length ≤ pre.length →
      moveSeqRev (pre ++ tail) rids (pre.length - rids.length) =
        pre.filter (fun x => !(rids.contains x)) ++ rids.reverse ++ tail := by
  intro rids
  induction rids with
  | nil =>
    intro pre tail _ _ _ _ _
    simp [moveSeqRev, List.contains]
  | cons a rest ih =>
    intro pre tail hnd hpre htail hprend hlen
    have hna : a ∉ rest := (List.nodup_cons.mp hnd).1
    have hrest : rest.Nodup := (List.nodup_cons.mp hnd).2
    have ha : a ∈ pre := hpre a (List.mem_cons_self a rest)
    have hatail : a ∉ tail := htail a (List.mem_cons_self a rest)
    have hmem : a ∈ pre ++ tail := List.mem_append_left tail ha
    have hlen1 : rest.length + 1 ≤ pre.length := by
      simpa using hlen
    have hidx : pre.length - (a :: rest).length + rest.length = pre.length - 1 := by
      simp only [List.length_cons]
      omega
    have herase : (pre ++ tail).erase a = pre.erase a ++ tail :=
      List.erase_append_left tail ha
    have hlenerase : (pre.erase a).length = pre.length - 1 :=
      List.length_erase_of_mem ha
    have hmove : moveOne (pre ++ tail) a (pre.length - 1) = pre.erase a ++ a :: tail := by
      unfold moveOne
      rw [if_pos hmem]
      show List.insertIdx
          (min (pre.length - 1) ((pre ++ tail).erase a).length) a ((pre ++ tail).erase a)
        = pre.erase a ++ a :: tail
      have hmin : min (pre.length - 1) (pre.erase a ++ tail).length
          = (pre.erase a).length := by
        rw [List.length_append, hlenerase]
        omega
      rw [herase, hmin, insertIdx_append_length]
    have hsub' : ∀ x ∈ rest, x ∈ pre.erase a := by
      intro x hx
      have hne : x ≠ a := fun he => hna (he ▸ hx)
      exact (List.mem_erase_of_ne hne).mpr (hpre x (List.mem_cons_of_mem a hx))
    have htail' : ∀ x ∈ rest, x ∉ a :: tail := by
      intro x hx hmem'
      have hne : x ≠ a := fun he => hna (he ▸ hx)
      rcases List.mem_cons.mp hmem' with he | ht
      · exact hne he
      · exact htail x (List.mem_cons_of_mem a hx) ht
    have hs : pre.length - (a :: rest).length = (pre.erase a).length - rest.length := by
      rw [hlenerase]
      simp only [List.length_cons]
      omega
    rw [moveSeqRev, hidx, hmove, hs,
      ih (pre.erase a) (a :: tail) hrest hsub' htail' (hprend.erase a)
        (by rw [hlenerase]; omega),
      filter_contains_cons_erase pre a rest hprend, List.reverse_cons]
    simp [List.append_assoc]

theorem moveBatch_collapse (ids pre tail : List Nat)
    (hnd : ids.Nodup) (hpre : ∀ x ∈ ids, x ∈ pre) (htail : ∀ x ∈ ids, x ∉ tail)
    (hprend : pre.Nodup) :
    moveBatch (pre ++ tail) ids (pre.length - ids.length) =
      pre.filter (fun x => !(ids.contains x)) ++ ids ++ tail := by
  have htailf : tail.filter (fun x => !(ids.contains x)) = tail := by
    rw [List.filter_eq_self]
    intro x hx
    have hnm : x ∉ ids := fun hmem => htail x hmem hx
    have hc : ids.contains x = false := by
      rw [contains_eq_decide]
      exact decide_eq_false hnm
    simp only [hc, Bool.not_false]
  have hflen := filter_not_contains_length ids pre hnd hprend hpre
  have hmin : min (pre.length - ids.length)
      (pre.filter (fun x => !(ids.contains x)) ++ tail).length
      = pre.length - ids.length := by
    rw [List.length_append, hflen]
    omega
  unfold moveBatch
  show List.take (min (pre.length - ids.length)
        ((pre ++ tail).filter (fun x => !(ids.contains x))).length)
      ((pre ++ tail).filter (fun x => !(ids.contains x)))
    ++ ids ++
    List.drop (min (pre.length - ids.length)
        ((pre ++ tail).filter (fun x => !(ids.contains x))).length)
      ((pre ++ tail).filter (fun x => !(ids.contains x)))
    = pre.filter (fun x => !(ids.contains x)) ++ ids ++ tail
  rw [List.filter_append, htailf, hmin, ← hflen, List.take_left, List.drop_left]

theorem le_foldr_max (l : List Nat) (a : Nat) : a ≤ l.foldr max a := by
  induction l with
  | nil => exact le_refl a
  | cons x xs ih => exact le_trans ih (le_max_right x _)

theorem mem_le_foldr_max (l : List Nat) (a : Nat) : ∀ x ∈ l, x ≤ l.foldr max a := by
  induction l with
  | nil => intro x hx; cases hx
  | cons y ys ih =>
    intro x hx
    rcases List.mem_cons.mp hx with hxy | hx'
    · rw [hxy]; exact le_max_left _ _
    · exact le_trans (ih x hx') (le_max_right _ _)

theorem foldr_max_lt (l : List Nat) (B : Nat) (hB : 0 < B)
    (h : ∀ x ∈ l, x < B) : l.foldr max 0 < B := by
  induction l with
  | nil => simpa using hB
  | cons x xs ih =>
    have h1 : x < B := h x (List.mem_cons_self x xs)
    have h2 : xs.foldr max 0 < B := ih (fun y hy => h y (List.mem_cons_of_mem x hy))
    simp only [List.foldr_cons]
    exact max_lt h1 h2

theorem indexOf_le_maxPos (w ids : List Nat) (x : Nat) (hx : x ∈ ids) :
    List.indexOf x w ≤ maxPos w ids := by
  unfold maxPos
  exact mem_le_foldr_max _ 0 _ (List.mem_map.mpr ⟨x, hx, rfl⟩)

theorem maxPos_lt_length (w ids : List Nat) (hsub : ∀ x ∈ ids, x ∈ w)
    (hw : w ≠ []) : maxPos w ids < w.length := by
  unfold maxPos
  apply foldr_max_lt
  · exact List.length_pos.mpr hw
  · intro p hp
    rcases List.mem_map.mp hp with ⟨x, hx, rfl⟩
    exact List.indexOf_lt_length.mpr (hsub x hx)

theorem mem_take_succ_of_indexOf_le (w : List Nat) (x : Nat) (R : Nat)
    (hx : x ∈ w) (hle : List.indexOf x w ≤ R) : x ∈ w.take (R + 1) := by
  have hlt : List.indexOf x w < w.length := List.indexOf_lt_length.mpr hx
  have h1 : List.indexOf x w < (w.take (R + 1)).length := by
    rw [List.length_take]
    exact lt_min_iff.mpr ⟨by omega, hlt⟩
  have h2 : (w.take (R + 1))[List.indexOf x w] = w[List.indexOf x w] :=
    @List.getElem_take _ w (R + 1) (List.indexOf x w) h1
  have h3 : w[List.indexOf x w] = x := List.getElem_indexOf hlt
  have h4 := List.getElem_mem h1
  rw [h2, h3] at h4
  exact h4

/-- C3: for every window, selection of at least two tabs and target
ordering of their ids, the destination start equals
`rightmost − n + 1` (so the block ends at the original rightmost occupied
position), the back-to-front single-move loop produces the same final
arrangement as the batched move, and afterwards the selected ids occupy
positions `start .. start+n−1` in exactly the target order. -/
theorem claim_C3 (w ids : List Nat) (hw : w.Nodup) (hids : ids.Nodup)
    (hlen : 2 ≤ ids.length) (hsub : ∀ x ∈ ids, x ∈ w) :
    ((startPos w ids : Int) = (maxPos w ids : Int) - ids.length + 1)
    ∧ startPos w ids + ids.length - 1 = maxPos w ids
    ∧ moveTabsSeq w ids (startPos w ids) = moveBatch w ids (startPos w ids)
    ∧ (∀ i, i < ids.length →
        (moveBatch w ids (startPos w ids))[startPos w ids + i]? = ids[i]?) := by
  have hwne : w ≠ [] := by
    rcases ids with _ | ⟨a, rest⟩
    · simp at hlen
    · exact List.ne_nil_of_mem (hsub a (List.mem_cons_self a rest))
  set R := maxPos w ids with hR
  set S := startPos w ids with hSdef
  have hRlt : R < w.length := maxPos_lt_length w ids hsub hwne
  set pre := w.take (R + 1) with hpredef
  set tail := w.drop (R + 1) with htaildef
  have hsplit : pre ++ tail = w := List.take_append_drop (R + 1) w
  have hplen : pre.length = R + 1 := by
    rw [hpredef, List.length_take]
    exact min_eq_left (by omega)
  have hprend : pre.Nodup := by
    rw [hpredef]
    exact List.Nodup.sublist (List.take_sublist _ w) hw
  have hsubpre : ∀ x ∈ ids, x ∈ pre := by
    intro x hx
    rw [hpredef]
    exact mem_take_succ_of_indexOf_le w x _ (hsub x hx) (indexOf_le_maxPos w ids x hx)
  have hdisj : ∀ x ∈ ids, x ∉ tail := by
    intro x hx ht
    have hnd2 : (pre ++ tail).Nodup := by
      rw [hsplit]
      exact hw
    exact (List.nodup_append.mp hnd2).2.2 (hsubpre x hx) ht
  have hnle : ids.length ≤ R + 1 := by
    have hsp := (hids.subperm hsubpre).length_le
    rwa [hplen] at hsp
  have hdefNat : S = R + 1 - ids.length := by
    rw [hSdef, startPos, ← hR]
  have hs : S = pre.length - ids.length := by
    rw [hdefNat, hplen]
  have hbatch : moveBatch w ids S =
      pre.filter (fun x => !(ids.contains x)) ++ ids ++ tail := by
    conv_lhs => rw [← hsplit, hs]
    exact moveBatch_collapse ids pre tail hids hsubpre hdisj hprend
  have hseq : moveTabsSeq w ids S =
      pre.filter (fun x => !(ids.contains x)) ++ ids ++ tail := by
    conv_lhs => rw [← hsplit, hs, moveTabsSeq]
    have hrev := moveSeqRev_collapse ids.reverse pre tail
      (List.nodup_reverse.mpr hids)
      (fun x hx => hsubpre x (List.mem_reverse.mp hx))
      (fun x hx => hdisj x (List.mem_reverse.mp hx))
      hprend
      (by rw [List.length_reverse, hplen]; omega)
    rw [List.length_reverse] at hrev
    rw [hrev, List.reverse_reverse]
    have hfeq : pre.filter (fun x => !(ids.reverse.contains x))
        = pre.filter (fun x => !(ids.contains x)) := by
      refine List.filter_congr ?_
      intro x _
      rw [contains_reverse]
    rw [hfeq]
  refine ⟨by omega, by omega, hseq.trans hbatch.symm, ?_⟩
  intro i hi
  rw [hbatch]
  have hflen : (pre.filter (fun x => !(ids.contains x))).length = S := by
    rw [filter_not_contains_length ids pre hids hprend hsubpre, hplen, ← hdefNat]
  rw [List.append_assoc,
    List.getElem?_append_right (by rw [hflen]; omega)]
  have hidx : S + i - (pre.filter (fun x => !(ids.contains x))).length = i := by
    rw [hflen]
    omega
  rw [hidx, List.getElem?_append_left hi]

/-- C3 witness: the spec's example — three selected tabs at positions
5, 7, 9 of a ten-tab window, reordered to item@9, item@5, item@7; the
computed start is 7 and the final positions 7, 8, 9 carry the new order,
identically for the batched and the sequential strategy. -/
theorem claim_C3_witness :
    (exWindow.Nodup ∧ exOrder.Nodup ∧ 2 ≤ exOrder.length
      ∧ (∀ x ∈ exOrder, x ∈ exWindow))
    ∧ (((startPos exWindow exOrder : Int)
          = (maxPos exWindow exOrder : Int) - exOrder.length + 1)
        ∧ startPos exWindow exOrder + exOrder.length - 1 = maxPos exWindow exOrder
        ∧ moveTabsSeq exWindow exOrder (startPos exWindow exOrder)
            = moveBatch exWindow exOrder (startPos exWindow exOrder)
        ∧ (∀ i, i < exOrder.length →
            (moveBatch exWindow exOrder (startPos exWindow exOrder))[
              startPos exWindow exOrder + i]? = exOrder[i]?))
    ∧ startPos exWindow exOrder = 7
    ∧ moveBatch exWindow exOrder 7
        = [101, 102, 103, 104, 105, 106, 107, 22, 20, 21] :=
  ⟨⟨by decide, by decide, by decide, by decide⟩,
   claim_C3 exWindow exOrder (by decide) (by decide) (by decide) (by decide),
   by decide, by decide⟩

theorem le_foldl_max (l : List Int) (a : Int) : a ≤ l.foldl max a := by
  induction l generalizing a with
  | nil => exact le_refl a
  | cons y ys ih => exact le_trans (le_max_left a y) (ih (max a y))

theorem mem_le_foldl_max (l : List Int) (a : Int) : ∀ x ∈ l, x ≤ l.foldl max a := by
  induction l generalizing a with
  | nil => intro x hx; cases hx
  | cons y ys ih =>
    intro x hx
    rcases List.mem_cons.mp hx with hxy | hx'
    · rw [hxy]
      exact le_trans (le_max_right a y) (le_foldl_max ys (max a y))
    · exact ih (max a y) x hx'

/-- Every tab's index is bounded by `maxIndex` on a non-empty selection. -/
theorem index_le_maxIndex (tabs : List Tab) (t : Tab) (ht : t ∈ tabs) :
    t.index ≤ maxIndex tabs := by
  rcases tabs with _ | ⟨t0, rest⟩
  · cases ht
  · show t.index ≤ (rest.map (·.index)).foldl max t0.index
    rcases List.mem_cons.mp ht with hh | hm
    · rw [hh]
      exact le_foldl_max _ _
    · exact mem_le_foldl_max _ _ _ (List.mem_map.mpr ⟨t, hm, rfl⟩)

/-- C10 (implicit): for every non-empty selection with distinct
non-negative positions, the computed `startIndex` is non-negative, and
every target index `startIndex + i` issued by the repositioner is
non-negative and bounded by the rightmost occupied position — the
out-of-range error branch of the move API is unreachable. -/
theorem claim_C10 (tabs : List Tab) (hne : tabs ≠ [])
    (hnd : (tabs.map (·.index)).Nodup) (hpos : ∀ t ∈ tabs, 0 ≤ t.index) :
    0 ≤ startIndex tabs
    ∧ (∀ i : Nat, i < tabs.length →
        0 ≤ startIndex tabs + i ∧ startIndex tabs + i ≤ maxIndex tabs) := by
  have hM0 : 0 ≤ maxIndex tabs := by
    rcases tabs with _ | ⟨t0, rest⟩
    · exact absurd rfl hne
    · exact le_trans (hpos t0 (List.mem_cons_self t0 rest))
        (index_le_maxIndex _ t0 (List.mem_cons_self t0 rest))
  have hsubset : (tabs.map (·.index)).toFinset ⊆ Finset.Icc 0 (maxIndex tabs) := by
    intro p hp
    rcases List.mem_map.mp (List.mem_toFinset.mp hp) with ⟨t, ht, rfl⟩
    exact Finset.mem_Icc.mpr ⟨hpos t ht, index_le_maxIndex tabs t ht⟩
  have hcard : tabs.length ≤ (maxIndex tabs + 1).toNat := by
    have h1 : (tabs.map (·.index)).toFinset.card = tabs.length := by
      rw [List.toFinset_card_of_nodup hnd, List.length_map]
    have h2 := Finset.card_le_card hsubset
    rw [h1, Int.card_Icc] at h2
    simpa using h2
  have hcast : (tabs.length : Int) ≤ maxIndex tabs + 1 :=
    (Int.le_toNat (by omega)).mp hcard
  have hdef : startIndex tabs = maxIndex tabs - (tabs.length : Int) + 1 := rfl
  constructor
  · omega
  · intro i hi
    constructor
    · omega
    · omega

/-- C10 witness: the three-tab selection at positions 5, 7, 9. -/
theorem claim_C10_witness :
    (([mkTab 1 5 "a", mkTab 2 7 "b", mkTab 3 9 "c"] : List Tab) ≠ []
      ∧ ([mkTab 1 5 "a", mkTab 2 7 "b", mkTab 3 9 "c"].map (·.index)).Nodup
      ∧ (∀ t ∈ ([mkTab 1 5 "a", mkTab 2 7 "b", mkTab 3 9 "c"] : List Tab), 0 ≤ t.index))
    ∧ (0 ≤ startIndex [mkTab 1 5 "a", mkTab 2 7 "b", mkTab 3 9 "c"]
        ∧ (∀ i : Nat, i < ([mkTab 1 5 "a", mkTab 2 7 "b", mkTab 3 9 "c"] : List Tab).length →
            0 ≤ startIndex [mkTab 1 5 "a", mkTab 2 7 "b", mkTab 3 9 "c"] + i
            ∧ startIndex [mkTab 1 5 "a", mkTab 2 7 "b", mkTab 3 9 "c"] + i
                ≤ maxIndex [mkTab 1 5 "a", mkTab 2 7 "b", mkTab 3 9 "c"]))
    ∧ startIndex [mkTab 1 5 "a", mkTab 2 7 "b", mkTab 3 9 "c"] = 7 :=
  ⟨⟨by decide, by decide, by decide⟩,
   claim_C10 [mkTab 1 5 "a", mkTab 2 7 "b", mkTab 3 9 "c"]
     (by decide) (by decide) (by decide),
   by decide⟩

end Floribundus
